import Mathlib

/-!
Shallow embedding of `pytorch_lightning/plugins/training_type/fully_sharded.py`
(the `FullyShardedPlugin` class) and proofs about its behaviour.

Python strings are modelled as `List Char`; Python dicts (insertion-ordered,
assignment replaces the value of an existing key in place) are modelled as
association lists together with a `setKey` operation mirroring `d[k] = v`.
Side effects (entering the sharding context, wrapping, device moves, the
`pdb.set_trace()` call, optimizer setup) are modelled as explicit event traces.
-/

set_option autoImplicit false

/-- Python `str` as a sequence of characters. -/
abbrev PyStr := List Char

/-- `startsWithSeq p s` is true when `p` is an initial segment of `s`
(the check Python's `str.partition` performs at each candidate offset). -/
def startsWithSeq : PyStr → PyStr → Bool
  | [], _ => true
  | _ :: _, [] => false
  | p :: ps, c :: cs => p == c && startsWithSeq ps cs

/-- The third component of Python's `s.partition(sep)` for a non-empty `sep`:
everything after the first occurrence of `sep` in `s`, and the empty string
when `sep` does not occur in `s`.  Models `k.partition('module.')[2]` at
line 207 of the source. -/
def partitionThird (sep : PyStr) : PyStr → PyStr
  | [] => []
  | c :: rest =>
    if startsWithSeq sep (c :: rest) then (c :: rest).drop sep.length
    else partitionThird sep rest

/-- Whether `sep` occurs anywhere in `s` (Python `sep in s`, for non-empty `sep`). -/
def containsSeq (sep : PyStr) : PyStr → Bool
  | [] => startsWithSeq sep []
  | c :: rest => startsWithSeq sep (c :: rest) || containsSeq sep rest

/-- The separator `'module.'` used by `collate_state_dict`. -/
def modSep : PyStr := "module.".toList

section Dict

variable {V : Type}

/-- Whether key `k` is present in the association list (Python `k in d`). -/
def keyMem (k : PyStr) : List (PyStr × V) → Bool
  | [] => false
  | (k', _) :: rest => k == k' || keyMem k rest

/-- Python dict assignment `d[k] = v`: replace the value of an existing key in
place, otherwise append the new binding at the end. -/
def setKey (k : PyStr) (v : V) : List (PyStr × V) → List (PyStr × V)
  | [] => [(k, v)]
  | (k', v') :: rest => if k == k' then (k, v) :: rest else (k', v') :: setKey k v rest

/-- Build a Python dict from a sequence of key/value pairs in order (the
semantics of a dict comprehension: later bindings of the same key win). -/
def dictOfPairs (ps : List (PyStr × V)) : List (PyStr × V) :=
  ps.foldl (fun d kv => setKey kv.1 kv.2 d) []

/-- All keys of the association list are pairwise distinct (the invariant a
Python dict's key set satisfies). -/
def keysDistinct : List (PyStr × V) → Bool
  | [] => true
  | (k, _) :: rest => !keyMem k rest && keysDistinct rest

/-- The dict comprehension at line 207 of the source:
`{k.partition('module.')[2]: state_dict[k] for k in state_dict.keys()}`. -/
def collateTransform (sd : List (PyStr × V)) : List (PyStr × V) :=
  dictOfPairs (sd.map (fun kv => (partitionThird modSep kv.1, kv.2)))

end Dict

/-- The two `MisconfigurationException`s the constructor can raise
(lines 105-114 of the source). -/
inductive MisconfigurationException where
  | fairscaleUnavailable
  | wrappingUnsupported
deriving DecidableEq, Repr

/-- The keyword arguments of `FullyShardedPlugin.__init__`, with the default
values of the Python signature (`min_num_params` defaults to `1e8`;
`compute_dtype` is an opaque torch dtype handle, modelled as `Option Nat`). -/
structure FullyShardedArgs where
  cpu_offload : Bool := false
  flatten_parameters : Bool := true
  reshard_after_forward : Bool := true
  move_grads_to_cpu : Option Bool := none
  fp32_reduce_scatter : Option Bool := none
  compute_dtype : Option Nat := none
  bucket_cap_mb : Int := 25
  module_wrap : Bool := false
  module_auto_wrap : Bool := false
  min_num_params : Nat := 100000000
deriving DecidableEq, Repr

/-- The state a successfully constructed `FullyShardedPlugin` instance holds
(the attributes set at lines 116-126).  `procGroup` is `self._process_group`;
process groups are modelled as `Nat` handles.  `newGroupCalls` is ghost
instrumentation counting calls to `torch.distributed.new_group()`. -/
structure FullyShardedPlugin where
  cpu_offload : Bool
  flatten_parameters : Bool
  reshard_after_forward : Bool
  move_grads_to_cpu : Option Bool
  fp32_reduce_scatter : Option Bool
  compute_dtype : Option Nat
  bucket_cap_mb : Int
  module_wrap : Bool
  module_auto_wrap : Bool
  min_num_params : Nat
  procGroup : Option Nat
  newGroupCalls : Nat
deriving DecidableEq, Repr

/-- `FullyShardedPlugin.__init__` (lines 105-126): raises when FairScale's
fully-sharded support is unavailable, then raises when either wrap flag is
set, otherwise stores the configuration and sets `self._process_group = None`. -/
def FullyShardedPlugin.init (fairscaleFullyShardedAvailable : Bool)
    (a : FullyShardedArgs) : Except MisconfigurationException FullyShardedPlugin :=
  if !fairscaleFullyShardedAvailable then
    .error .fairscaleUnavailable
  else if a.module_wrap || a.module_auto_wrap then
    .error .wrappingUnsupported
  else
    .ok
      { cpu_offload := a.cpu_offload
        flatten_parameters := a.flatten_parameters
        reshard_after_forward := a.reshard_after_forward
        move_grads_to_cpu := a.move_grads_to_cpu
        fp32_reduce_scatter := a.fp32_reduce_scatter
        compute_dtype := a.compute_dtype
        bucket_cap_mb := a.bucket_cap_mb
        module_wrap := a.module_wrap
        module_auto_wrap := a.module_auto_wrap
        min_num_params := a.min_num_params
        procGroup := none
        newGroupCalls := 0 }

/-- The `module_wrapped` property (lines 257-259):
`return self.module_wrap or self.module_auto_wrap`. -/
def FullyShardedPlugin.module_wrapped (p : FullyShardedPlugin) : Bool :=
  p.module_wrap || p.module_auto_wrap

/-- The `process_group` property (lines 128-132): on first access create a new
group via `torch.distributed.new_group()` and memoize it in
`self._process_group`.  `freshGroup` stands for the handle the distributed
runtime would return; the updated plugin state is returned alongside. -/
def FullyShardedPlugin.process_group (p : FullyShardedPlugin) (freshGroup : Nat) :
    Nat × FullyShardedPlugin :=
  match p.procGroup with
  | some g => (g, p)
  | none =>
    (freshGroup,
     { p with procGroup := some freshGroup, newGroupCalls := p.newGroupCalls + 1 })

/-- Repeated accesses of the `process_group` property, threading the plugin
state; `freshGroups` supplies the handle `new_group()` would return at each
access. -/
def accessGroups (p : FullyShardedPlugin) : List Nat → FullyShardedPlugin
  | [] => p
  | f :: fs => accessGroups (p.process_group f).2 fs

/-- Observable side effects of the plugin's configuration and checkpoint
paths, in program order. -/
inductive Effect where
  | enterShardedContext
  | autoWrapModel
  | wrapModel
  | exitShardedContext
  | modelToDevice
  | lightningModuleToDevice
  | setupOptimizers
  | fetchStateDict
  | pdbSetTrace
deriving DecidableEq, Repr

/-- Event trace of `configure_ddp` (lines 161-174).  `modelHasNestedFsdp` is
the result of `self._model_has_nested_fsdp()`; `autoWrapYieldsFsdp` is whether
the value returned by `auto_wrap` is an instance of `FullyShardedDataParallel`.
Inside the sharded context: auto-wrap (with a defensive extra `wrap`) or manual
wrap, per the flags; after the context closes, `model_to_device` (moving the
model and then the lightning module, lines 176-179) unless `cpu_offload`;
finally `setup_optimizers` is triggered. -/
def FullyShardedPlugin.configure_ddp (p : FullyShardedPlugin)
    (modelHasNestedFsdp : Bool) (autoWrapYieldsFsdp : Bool) : List Effect :=
  [Effect.enterShardedContext]
    ++ (if p.module_auto_wrap && !modelHasNestedFsdp then
          Effect.autoWrapModel :: (if !autoWrapYieldsFsdp then [Effect.wrapModel] else [])
        else if p.module_wrap then [Effect.wrapModel]
        else [])
    ++ [Effect.exitShardedContext]
    ++ (if !p.cpu_offload then [Effect.modelToDevice, Effect.lightningModuleToDevice] else [])
    ++ [Effect.setupOptimizers]

/-- Result of `collate_state_dict` (lines 196-208): the trace of its effects
and the dictionary it returns.  Values of the state dict are opaque tensors. -/
structure CollateResult (V : Type) where
  trace : List Effect
  result : List (PyStr × V)
deriving DecidableEq, Repr

/-- `collate_state_dict` (lines 196-208): fetches `self.model.state_dict()`,
unconditionally executes `pdb.set_trace()`, then re-keys the dict through
`k.partition('module.')[2]` when `self.module_wrapped`, else returns it
unchanged. -/
def FullyShardedPlugin.collate_state_dict {V : Type} (p : FullyShardedPlugin)
    (modelStateDict : List (PyStr × V)) : CollateResult V :=
  { trace := [Effect.fetchStateDict, Effect.pdbSetTrace]
    result :=
      if p.module_wrapped then collateTransform modelStateDict else modelStateDict }

/-- `training_step` (lines 234-237): delegate to `super().training_step` when
`module_wrapped`, else call `self.model.training_step` directly.  The base
strategy's method and the model's method are passed in as functions. -/
def FullyShardedPlugin.training_step {α R : Type} (p : FullyShardedPlugin)
    (superTrainingStep : α → R) (modelTrainingStep : α → R) (args : α) : R :=
  if p.module_wrapped then superTrainingStep args else modelTrainingStep args

/-- `validation_step` (lines 239-242), analogous to `training_step`. -/
def FullyShardedPlugin.validation_step {α R : Type} (p : FullyShardedPlugin)
    (superValidationStep : α → R) (modelValidationStep : α → R) (args : α) : R :=
  if p.module_wrapped then superValidationStep args else modelValidationStep args

/-- `test_step` (lines 244-247), analogous to `training_step`. -/
def FullyShardedPlugin.test_step {α R : Type} (p : FullyShardedPlugin)
    (superTestStep : α → R) (modelTestStep : α → R) (args : α) : R :=
  if p.module_wrapped then superTestStep args else modelTestStep args

/-- `predict_step` (lines 249-252), analogous to `training_step`. -/
def FullyShardedPlugin.predict_step {α R : Type} (p : FullyShardedPlugin)
    (superPredictStep : α → R) (modelPredictStep : α → R) (args : α) : R :=
  if p.module_wrapped then superPredictStep args else modelPredictStep args

/-- The constructor arguments with every keyword left at its default. -/
def defaultArgs : FullyShardedArgs := {}

/-- The plugin state `__init__` produces from the default arguments. -/
def defaultPlugin : FullyShardedPlugin :=
  { cpu_offload := false
    flatten_parameters := true
    reshard_after_forward := true
    move_grads_to_cpu := none
    fp32_reduce_scatter := none
    compute_dtype := none
    bucket_cap_mb := 25
    module_wrap := false
    module_auto_wrap := false
    min_num_params := 100000000
    procGroup := none
    newGroupCalls := 0 }

/-- A plugin state with the manual whole-module wrap flag set (reachable in
Python only by mutating the attribute, since the constructor rejects it). -/
def wrappedPlugin : FullyShardedPlugin :=
  { defaultPlugin with module_wrap := true }

/-- A concrete stand-in for the base strategy's step implementation. -/
def stepSup (n : Nat) : Nat := n + 1

/-- A concrete stand-in for the model's own step method. -/
def stepMod (n : Nat) : Nat := n * 2

section StringLemmas

/-- The `'module.'` separator is non-empty. -/
theorem modSep_ne_nil : modSep ≠ [] := by decide

/-- If `sep` is an initial segment of `s` then `s` is `sep` followed by the
rest of `s`. -/
theorem startsWithSeq_decomp (sep : PyStr) :
    ∀ s : PyStr, startsWithSeq sep s = true → s = sep ++ s.drop sep.length := by
  induction sep with
  | nil => intro s _; simp
  | cons p ps ih =>
    intro s h
    cases s with
    | nil => simp [startsWithSeq] at h
    | cons c cs =>
      simp only [startsWithSeq, Bool.and_eq_true, beq_iff_eq] at h
      obtain ⟨hpc, hrest⟩ := h
      subst hpc
      simpa using ih cs hrest

/-- `startsWithSeq` of a non-empty pattern on the empty string is false. -/
theorem startsWithSeq_nil_of_ne (sep : PyStr) (hne : sep ≠ []) :
    startsWithSeq sep [] = false := by
  cases sep with
  | nil => exact absurd rfl hne
  | cons p ps => rfl

/-- When a non-empty `sep` heads `s`, `partitionThird` drops through it. -/
theorem partitionThird_of_startsWith (sep s : PyStr) (hne : sep ≠ [])
    (h : startsWithSeq sep s = true) :
    partitionThird sep s = s.drop sep.length := by
  cases s with
  | nil => rw [startsWithSeq_nil_of_ne sep hne] at h; exact absurd h (by simp)
  | cons c cs => simp [partitionThird, h]

/-- Python's `k.partition(sep)[2]` is empty when `sep` does not occur in `k`. -/
theorem partitionThird_eq_nil_of_not_contains (sep : PyStr) :
    ∀ s : PyStr, containsSeq sep s = false → partitionThird sep s = [] := by
  intro s
  induction s with
  | nil => intro _; rfl
  | cons c cs ih =>
    intro h
    simp only [containsSeq, Bool.or_eq_false_iff] at h
    simp [partitionThird, h.1, ih h.2]

/-- `partitionThird` cuts at the first occurrence: when `sep` occurs in `s`,
`s` splits as `a ++ sep ++ b` with result `b`, and no occurrence of `sep`
starts strictly inside `a`. -/
theorem partitionThird_first_occurrence (sep : PyStr) (hne : sep ≠ []) :
    ∀ s : PyStr, containsSeq sep s = true →
      ∃ a b : PyStr, s = a ++ sep ++ b ∧ partitionThird sep s = b ∧
        ∀ i : Nat, i < a.length → startsWithSeq sep (s.drop i) = false := by
  intro s
  induction s with
  | nil =>
    intro h
    rw [containsSeq, startsWithSeq_nil_of_ne sep hne] at h
    exact absurd h (by simp)
  | cons c cs ih =>
    intro h
    by_cases hhead : startsWithSeq sep (c :: cs) = true
    · refine ⟨[], (c :: cs).drop sep.length, ?_, ?_, ?_⟩
      · simpa using startsWithSeq_decomp sep (c :: cs) hhead
      · simp [partitionThird, hhead]
      · intro i hi; simp at hi
    · have hcs : containsSeq sep cs = true := by
        rw [containsSeq, Bool.or_eq_true] at h
        rcases h with h | h
        · exact absurd h hhead
        · exact h
      obtain ⟨a, b, hsplit, hpart, hmin⟩ := ih hcs
      refine ⟨c :: a, b, ?_, ?_, ?_⟩
      · simp [hsplit]
      · rw [partitionThird, if_neg (by simpa using hhead)]
        exact hpart
      · intro i hi
        cases i with
        | zero => simpa using eq_false_of_ne_true hhead
        | succ j =>
          simp only [List.length_cons, Nat.succ_lt_succ_iff] at hi
          simpa using hmin j hi

end StringLemmas

section DictLemmas

variable {V : Type}

/-- Key membership distributes over append. -/
theorem keyMem_append (k : PyStr) (d1 d2 : List (PyStr × V)) :
    keyMem k (d1 ++ d2) = (keyMem k d1 || keyMem k d2) := by
  induction d1 with
  | nil => simp [keyMem]
  | cons kv rest ih => rw [List.cons_append, keyMem, keyMem, ih, Bool.or_assoc]

/-- A key is absent exactly when it differs from every stored key. -/
theorem keyMem_eq_false_iff (k : PyStr) (d : List (PyStr × V)) :
    keyMem k d = false ↔ ∀ kv ∈ d, k ≠ kv.1 := by
  induction d with
  | nil => simp [keyMem]
  | cons kv rest ih =>
    cases kv with
    | mk k' v' =>
      simp only [keyMem, Bool.or_eq_false_iff, beq_eq_false_iff_ne, ih, List.mem_cons]
      constructor
      · rintro ⟨h1, h2⟩ kv hkv
        rcases hkv with rfl | hkv
        · exact h1
        · exact h2 kv hkv
      · intro h
        exact ⟨h (k', v') (Or.inl rfl), fun kv hkv => h kv (Or.inr hkv)⟩

/-- Assigning a fresh key appends the binding at the end of the dict. -/
theorem setKey_of_not_mem (k : PyStr) (v : V) (d : List (PyStr × V))
    (h : keyMem k d = false) : setKey k v d = d ++ [(k, v)] := by
  induction d with
  | nil => rfl
  | cons kv rest ih =>
    cases kv with
    | mk k' v' =>
      simp only [keyMem, Bool.or_eq_false_iff, beq_eq_false_iff_ne] at h
      rw [setKey, if_neg (by simpa using h.1), ih h.2, List.cons_append]

/-- Folding dict assignment over pairwise-distinct fresh keys appends them in
order. -/
theorem foldl_setKey_of_distinct :
    ∀ (ps acc : List (PyStr × V)), keysDistinct ps = true →
      (∀ kv ∈ ps, keyMem kv.1 acc = false) →
      ps.foldl (fun d kv => setKey kv.1 kv.2 d) acc = acc ++ ps := by
  intro ps
  induction ps with
  | nil => intro acc _ _; simp
  | cons kv rest ih =>
    intro acc h1 h2
    rw [keysDistinct, Bool.and_eq_true, Bool.not_eq_true'] at h1
    rw [List.foldl_cons, setKey_of_not_mem kv.1 kv.2 acc (h2 kv (List.mem_cons_self kv rest)),
      ih (acc ++ [(kv.1, kv.2)]) h1.2 ?_]
    · simp
    · intro kv' hkv'
      rw [keyMem_append, Bool.or_eq_false_iff]
      refine ⟨h2 kv' (List.mem_cons_of_mem kv hkv'), ?_⟩
      have hne : kv'.1 ≠ kv.1 := by
        intro heq
        have := (keyMem_eq_false_iff kv.1 rest).mp h1.1 kv' hkv'
        exact this heq.symm
      simp [keyMem, hne]

/-- Building a dict from pairs with pairwise-distinct keys reproduces the
pairs unchanged. -/
theorem dictOfPairs_of_distinct (ps : List (PyStr × V))
    (h : keysDistinct ps = true) : dictOfPairs ps = ps := by
  simpa using foldl_setKey_of_distinct ps [] h (by intro kv _; rfl)

/-- Rewriting every key through a map that is injective on the stored keys
preserves key membership. -/
theorem keyMem_map (f : PyStr → PyStr) (k : PyStr) :
    ∀ d : List (PyStr × V), (∀ kv ∈ d, f kv.1 = f k → kv.1 = k) →
      keyMem (f k) (d.map (fun kv => (f kv.1, kv.2))) = keyMem k d := by
  intro d
  induction d with
  | nil => intro _; rfl
  | cons kv rest ih =>
    intro hinj
    rw [List.map_cons, keyMem, keyMem,
      ih (fun kv' hkv' => hinj kv' (List.mem_cons_of_mem kv hkv'))]
    by_cases hk : k = kv.1
    · subst hk; simp
    · have hfk : f k ≠ f kv.1 := by
        intro heq
        exact hk ((hinj kv (List.mem_cons_self kv rest) heq.symm).symm)
      rw [show (f k == f kv.1) = false from beq_eq_false_iff_ne.mpr hfk,
        show (k == kv.1) = false from beq_eq_false_iff_ne.mpr hk]

/-- Rewriting every key through a map that is injective on the stored keys
preserves distinctness of the keys. -/
theorem keysDistinct_map (f : PyStr → PyStr) :
    ∀ d : List (PyStr × V), (∀ kv1 ∈ d, ∀ kv2 ∈ d, f kv1.1 = f kv2.1 → kv1.1 = kv2.1) →
      keysDistinct d = true → keysDistinct (d.map (fun kv => (f kv.1, kv.2))) = true := by
  intro d
  induction d with
  | nil => intro _ _; rfl
  | cons kv rest ih =>
    intro hinj hd
    rw [keysDistinct, Bool.and_eq_true, Bool.not_eq_true'] at hd
    rw [List.map_cons, keysDistinct, Bool.and_eq_true, Bool.not_eq_true']
    refine ⟨?_, ih (fun kv1 h1 kv2 h2 => hinj kv1 (List.mem_cons_of_mem kv h1) kv2 (List.mem_cons_of_mem kv h2)) hd.2⟩
    rw [keyMem_map f kv.1 rest (fun kv' hkv' heq =>
      hinj kv' (List.mem_cons_of_mem kv hkv') kv (List.mem_cons_self kv rest) heq)]
    exact hd.1

end DictLemmas

section MoreLemmas

/-- `partitionThird` is injective on keys that carry the `'module.'` head. -/
theorem partitionThird_inj_of_startsWith (k1 k2 : PyStr)
    (h1 : startsWithSeq modSep k1 = true) (h2 : startsWithSeq modSep k2 = true)
    (heq : partitionThird modSep k1 = partitionThird modSep k2) : k1 = k2 := by
  rw [partitionThird_of_startsWith modSep k1 modSep_ne_nil h1,
    partitionThird_of_startsWith modSep k2 modSep_ne_nil h2] at heq
  rw [startsWithSeq_decomp modSep k1 h1, startsWithSeq_decomp modSep k2 h2, heq]

/-- Once the process group is memoized, further accesses change nothing. -/
theorem accessGroups_of_some (g : Nat) :
    ∀ (fs : List Nat) (p : FullyShardedPlugin), p.procGroup = some g →
      accessGroups p fs = p := by
  intro fs
  induction fs with
  | nil => intro p _; rfl
  | cons f fs ih =>
    intro p h
    rw [accessGroups,
      show p.process_group f = (g, p) from by simp [FullyShardedPlugin.process_group, h]]
    exact ih p h

end MoreLemmas

/-- Claim C1 (counterexample): constructing with `module_wrap = true` and
`module_auto_wrap = false`, with the sharding dependency installed, raises a
`MisconfigurationException` — it does not construct successfully. -/
theorem single_wrap_flag_raises_counterexample :
    FullyShardedPlugin.init true { module_wrap := true } =
      Except.error MisconfigurationException.wrappingUnsupported ∧
    ({ module_wrap := true } : FullyShardedArgs).module_auto_wrap = false :=
  ⟨rfl, rfl⟩

/-- Claim C1 (amended): with the sharding dependency installed, constructing
with either wrap flag set — in particular with exactly one of the two — always
raises the wrapping-unsupported `MisconfigurationException`; only the no-wrap
configuration is accepted. -/
theorem any_wrap_flag_raises (a : FullyShardedArgs)
    (h : a.module_wrap = true ∨ a.module_auto_wrap = true) :
    FullyShardedPlugin.init true a =
      Except.error MisconfigurationException.wrappingUnsupported := by
  rcases h with h | h <;> simp [FullyShardedPlugin.init, h]

/-- Witness for the amended claim C1 at a concrete argument bundle. -/
theorem any_wrap_flag_raises_witness :
    FullyShardedPlugin.init true { module_wrap := true, module_auto_wrap := false } =
      Except.error MisconfigurationException.wrappingUnsupported :=
  any_wrap_flag_raises { module_wrap := true, module_auto_wrap := false } (Or.inl rfl)

/-- Claim C2: for every combination of the other constructor options, setting
both wrap flags raises a `MisconfigurationException` synchronously at
construction. -/
theorem both_wrap_flags_raise (available : Bool) (a : FullyShardedArgs)
    (h1 : a.module_wrap = true) (_h2 : a.module_auto_wrap = true) :
    ∃ e : MisconfigurationException, FullyShardedPlugin.init available a = .error e := by
  cases available with
  | false => exact ⟨.fairscaleUnavailable, by simp [FullyShardedPlugin.init]⟩
  | true => exact ⟨.wrappingUnsupported, by simp [FullyShardedPlugin.init, h1]⟩

/-- Witness for claim C2 at a concrete argument bundle. -/
theorem both_wrap_flags_raise_witness :
    ∃ e : MisconfigurationException,
      FullyShardedPlugin.init true { module_wrap := true, module_auto_wrap := true } =
        .error e :=
  both_wrap_flags_raise true { module_wrap := true, module_auto_wrap := true } rfl rfl

/-- Claim C4: every `collate_state_dict` call executes `pdb.set_trace()` after
fetching the model's state dict and before returning, unconditionally in the
plugin's configuration and in the state dict. -/
theorem collate_state_dict_always_pdb {V : Type} (p : FullyShardedPlugin)
    (sd : List (PyStr × V)) :
    (p.collate_state_dict sd).trace = [Effect.fetchStateDict, Effect.pdbSetTrace] :=
  rfl

/-- Claim C6: when `module_wrapped` is false, `collate_state_dict` returns the
model's state dict unchanged, with no key re-written. -/
theorem collate_state_dict_unwrapped_id {V : Type} (p : FullyShardedPlugin)
    (sd : List (PyStr × V)) (h : p.module_wrapped = false) :
    (p.collate_state_dict sd).result = sd := by
  simp [FullyShardedPlugin.collate_state_dict, h]

/-- Witness for claim C6 on the default plugin and a concrete state dict. -/
theorem collate_state_dict_unwrapped_id_witness :
    (defaultPlugin.collate_state_dict [("layer.weight".toList, 0)]).result =
      [("layer.weight".toList, 0)] :=
  collate_state_dict_unwrapped_id defaultPlugin [("layer.weight".toList, 0)] rfl

/-- Claim C8: each of the four step methods delegates to the base strategy's
implementation when `module_wrapped` is true, and calls the model's method
directly with the same arguments when it is false, returning its result. -/
theorem step_dispatch {α R : Type} (p : FullyShardedPlugin)
    (supT supV supTe supP modT modV modTe modP : α → R) (args : α) :
    (p.module_wrapped = true →
      p.training_step supT modT args = supT args ∧
      p.validation_step supV modV args = supV args ∧
      p.test_step supTe modTe args = supTe args ∧
      p.predict_step supP modP args = supP args) ∧
    (p.module_wrapped = false →
      p.training_step supT modT args = modT args ∧
      p.validation_step supV modV args = modV args ∧
      p.test_step supTe modTe args = modTe args ∧
      p.predict_step supP modP args = modP args) := by
  constructor <;> intro h <;>
    simp [FullyShardedPlugin.training_step, FullyShardedPlugin.validation_step,
      FullyShardedPlugin.test_step, FullyShardedPlugin.predict_step, h]

/-- Witness for claim C8: on a non-wrapped plugin the four step methods invoke
the model's method, and on a wrapped one the base strategy's. -/
theorem step_dispatch_witness :
    (defaultPlugin.training_step stepSup stepMod 3 = stepMod 3 ∧
     defaultPlugin.validation_step stepSup stepMod 3 = stepMod 3 ∧
     defaultPlugin.test_step stepSup stepMod 3 = stepMod 3 ∧
     defaultPlugin.predict_step stepSup stepMod 3 = stepMod 3) ∧
    (wrappedPlugin.training_step stepSup stepMod 3 = stepSup 3 ∧
     wrappedPlugin.validation_step stepSup stepMod 3 = stepSup 3 ∧
     wrappedPlugin.test_step stepSup stepMod 3 = stepSup 3 ∧
     wrappedPlugin.predict_step stepSup stepMod 3 = stepSup 3) :=
  ⟨(step_dispatch defaultPlugin stepSup stepSup stepSup stepSup
      stepMod stepMod stepMod stepMod 3).2 rfl,
   (step_dispatch wrappedPlugin stepSup stepSup stepSup stepSup
      stepMod stepMod stepMod stepMod 3).1 rfl⟩

/-- Claim C9: `process_group` is lazily memoized — every access after the
first returns the identical stored group and leaves the plugin state
untouched, and from a freshly constructed plugin any sequence of accesses
calls `torch.distributed.new_group()` at most once. -/
theorem process_group_memoized :
    (∀ (p : FullyShardedPlugin) (f1 f2 : Nat),
        ((p.process_group f1).2).process_group f2 =
          ((p.process_group f1).1, (p.process_group f1).2)) ∧
    (∀ (p : FullyShardedPlugin) (fs : List Nat),
        p.procGroup = none → p.newGroupCalls = 0 →
        (accessGroups p fs).newGroupCalls ≤ 1) := by
  constructor
  · intro p f1 f2
    cases h : p.procGroup with
    | some g => simp [FullyShardedPlugin.process_group, h]
    | none => simp [FullyShardedPlugin.process_group, h]
  · intro p fs h0 hc
    cases fs with
    | nil => simp [accessGroups, hc]
    | cons f fs =>
      rw [accessGroups,
        accessGroups_of_some f fs (p.process_group f).2
          (by simp [FullyShardedPlugin.process_group, h0])]
      simp [FullyShardedPlugin.process_group, h0, hc]

/-- Witness for claim C9: three consecutive accesses on a fresh default plugin
create at most one process group. -/
theorem process_group_memoized_witness :
    (accessGroups defaultPlugin [5, 7, 9]).newGroupCalls ≤ 1 :=
  process_group_memoized.2 defaultPlugin [5, 7, 9] rfl rfl

/-- Claim C10: in `configure_ddp`, after the sharding context closes, the
model and the lightning-module handle are moved to the device exactly when
`cpu_offload` is false, and optimizer setup is always triggered, last. -/
theorem configure_ddp_device_move (p : FullyShardedPlugin)
    (nested yields : Bool) :
    (p.cpu_offload = true →
      Effect.modelToDevice ∉ p.configure_ddp nested yields ∧
      Effect.lightningModuleToDevice ∉ p.configure_ddp nested yields) ∧
    (p.cpu_offload = false →
      Effect.modelToDevice ∈ p.configure_ddp nested yields ∧
      Effect.lightningModuleToDevice ∈ p.configure_ddp nested yields) ∧
    (p.configure_ddp nested yields).getLast? = some Effect.setupOptimizers := by
  obtain ⟨co, fp, ra, mg, f32, cd, bc, mw, maw, mnp, pg, ngc⟩ := p
  cases co <;> cases mw <;> cases maw <;> cases nested <;> cases yields <;>
    simp [FullyShardedPlugin.configure_ddp, List.getLast?]

/-- Witness for claim C10 on the default (no-offload) plugin. -/
theorem configure_ddp_device_move_witness :
    Effect.modelToDevice ∈ defaultPlugin.configure_ddp false false ∧
    Effect.lightningModuleToDevice ∈ defaultPlugin.configure_ddp false false :=
  (configure_ddp_device_move defaultPlugin false false).2.1 rfl

/-- Claim C3: every successfully constructed plugin has both wrap flags false,
hence `module_wrapped` is false for its lifetime, all four step methods call
the model directly, and the two wrap branches of `configure_ddp` never fire. -/
theorem constructed_plugin_unwrapped (available : Bool) (a : FullyShardedArgs)
    (p : FullyShardedPlugin) (h : FullyShardedPlugin.init available a = .ok p) :
    p.module_wrap = false ∧ p.module_auto_wrap = false ∧
    p.module_wrapped = false ∧
    (∀ (sup mod : Nat → Nat) (x : Nat),
        p.training_step sup mod x = mod x ∧
        p.validation_step sup mod x = mod x ∧
        p.test_step sup mod x = mod x ∧
        p.predict_step sup mod x = mod x) ∧
    (∀ nested yields : Bool,
        Effect.autoWrapModel ∉ p.configure_ddp nested yields ∧
        Effect.wrapModel ∉ p.configure_ddp nested yields) := by
  cases available with
  | false => exact absurd h (by simp [FullyShardedPlugin.init])
  | true =>
    cases hmw : a.module_wrap with
    | true => exact absurd h (by simp [FullyShardedPlugin.init, hmw])
    | false =>
      cases hmaw : a.module_auto_wrap with
      | true => exact absurd h (by simp [FullyShardedPlugin.init, hmw, hmaw])
      | false =>
        rw [FullyShardedPlugin.init] at h
        simp only [hmw, hmaw, Bool.not_true, Bool.or_self, Bool.false_eq_true,
          if_false, ite_false, Except.ok.injEq] at h
        subst h
        refine ⟨rfl, rfl, rfl, fun sup mod x => ⟨rfl, rfl, rfl, rfl⟩, ?_⟩
        intro nested yields
        cases hco : a.cpu_offload <;>
          simp [FullyShardedPlugin.configure_ddp, hco]

/-- Witness for claim C3: the plugin built from the default arguments. -/
theorem constructed_plugin_unwrapped_witness :
    defaultPlugin.module_wrap = false ∧ defaultPlugin.module_auto_wrap = false ∧
    defaultPlugin.module_wrapped = false ∧
    defaultPlugin.training_step stepSup stepMod 3 = stepMod 3 ∧
    Effect.autoWrapModel ∉ defaultPlugin.configure_ddp false false ∧
    Effect.wrapModel ∉ defaultPlugin.configure_ddp false false := by
  have h := constructed_plugin_unwrapped true defaultArgs defaultPlugin rfl
  exact ⟨h.1, h.2.1, h.2.2.1, (h.2.2.2.1 stepSup stepMod 3).1,
    (h.2.2.2.2 false false).1, (h.2.2.2.2 false false).2⟩

/-- Claim C5: when `module_wrapped` is true and every key of the model's state
dict carries the wrapper head `'module.'` (keys pairwise distinct, as in any
Python dict), `collate_state_dict` strips that wrapper from every key and
keeps every value unchanged. -/
theorem collate_state_dict_wrapped_strips {V : Type} (p : FullyShardedPlugin)
    (sd : List (PyStr × V)) (hw : p.module_wrapped = true)
    (hkeys : ∀ kv ∈ sd, startsWithSeq modSep kv.1 = true)
    (hdist : keysDistinct sd = true) :
    (p.collate_state_dict sd).result =
      sd.map (fun kv => (kv.1.drop modSep.length, kv.2)) := by
  have hmap : sd.map (fun kv => (partitionThird modSep kv.1, kv.2)) =
      sd.map (fun kv => (kv.1.drop modSep.length, kv.2)) := by
    apply List.map_congr_left
    intro kv hkv
    rw [partitionThird_of_startsWith modSep kv.1 modSep_ne_nil (hkeys kv hkv)]
  have hdist2 :
      keysDistinct (sd.map (fun kv => (partitionThird modSep kv.1, kv.2))) = true := by
    apply keysDistinct_map (fun k => partitionThird modSep k) sd ?_ hdist
    intro kv1 h1 kv2 h2 heq
    exact partitionThird_inj_of_startsWith kv1.1 kv2.1 (hkeys kv1 h1) (hkeys kv2 h2) heq
  calc (p.collate_state_dict sd).result
      = collateTransform sd := by
        simp [FullyShardedPlugin.collate_state_dict, hw]
    _ = dictOfPairs (sd.map (fun kv => (partitionThird modSep kv.1, kv.2))) := rfl
    _ = sd.map (fun kv => (partitionThird modSep kv.1, kv.2)) :=
        dictOfPairs_of_distinct _ hdist2
    _ = sd.map (fun kv => (kv.1.drop modSep.length, kv.2)) := hmap

/-- Witness for claim C5 on the spec's example: keys `module.layer.weight`
and `module.layer.bias` become `layer.weight` and `layer.bias`, values kept. -/
theorem collate_state_dict_wrapped_strips_witness :
    (wrappedPlugin.collate_state_dict
        [("module.layer.weight".toList, 0), ("module.layer.bias".toList, 1)]).result =
      [("layer.weight".toList, 0), ("layer.bias".toList, 1)] := by
  rw [collate_state_dict_wrapped_strips wrappedPlugin
    [("module.layer.weight".toList, 0), ("module.layer.bias".toList, 1)]
    rfl (by decide) (by decide)]
  decide

/-- Claim C7: under `module_wrapped`, the key transformation is
`k.partition('module.')[2]`, not a pure prefix strip: the wrapped branch of
`collate_state_dict` applies exactly this transformation, a key not containing
`'module.'` is sent to the empty key, a key containing `'module.'` loses
everything up to and including its first occurrence, and two distinct keys can
collide into a single entry of the resulting dict (the later value wins). -/
theorem partition_semantics :
    (∀ (p : FullyShardedPlugin) (sd : List (PyStr × Nat)),
        p.module_wrapped = true →
        (p.collate_state_dict sd).result =
          dictOfPairs (sd.map (fun kv => (partitionThird modSep kv.1, kv.2)))) ∧
    (∀ k : PyStr, containsSeq modSep k = false → partitionThird modSep k = []) ∧
    (∀ k : PyStr, containsSeq modSep k = true →
        ∃ a b : PyStr, k = a ++ modSep ++ b ∧ partitionThird modSep k = b ∧
          ∀ i : Nat, i < a.length → startsWithSeq modSep (k.drop i) = false) ∧
    (∃ k1 k2 : PyStr, k1 ≠ k2 ∧
        collateTransform [(k1, 0), (k2, 1)] = [(partitionThird modSep k1, 1)]) := by
  refine ⟨?_, partitionThird_eq_nil_of_not_contains modSep,
    partitionThird_first_occurrence modSep modSep_ne_nil, ?_⟩
  · intro p sd hw
    simp [FullyShardedPlugin.collate_state_dict, hw, collateTransform]
  · exact ⟨"module.a".toList, "x.module.a".toList, by decide, by decide⟩

/-- Witness for claim C7: a key without `'module.'` anywhere is mapped to the
empty key. -/
theorem partition_semantics_witness :
    partitionThird modSep ("layerweight".toList) = [] :=
  partition_semantics.2.1 ("layerweight".toList) (by decide)
